import Mathlib

/-!
Shallow embedding of `autoclear-backup` (src/src/main.rs).

The program scans a directory, filters file names by an optional
name filter string, reads each file's modification time, sorts the
resulting candidate list by modification time descending, and — when
the filter string is supplied — sweeps a fixed list of six retention
boundaries over the sorted list, marking for each boundary the first
candidate strictly older than that boundary as kept (`clean := false`).
Finally every candidate still flagged `clean = true` is deleted
(printed instead when in test mode).

Time is modelled as `Int` seconds; `chrono::Duration::days/weeks` are
exact second counts (86400 s per day).  The directory read is modelled
as an `Except`; a directory entry is a name together with an optional
modification time (`none` models a failed metadata or UTF-8 read, which
the code silently skips).
-/

namespace AutoclearBackup

/-- A directory entry: file name and, when metadata could be read, its
modification time. -/
structure DirEntry where
  name : String
  meta : Option Int
deriving Repr, DecidableEq

/-- A candidate file as stored in the code's `keep_files` vector:
`(modified_time, path, clean)`.  `clean = true` means the file is still
scheduled for removal; the sweep sets `clean := false` to keep a file. -/
structure FileRec where
  mtime : Int
  path : String
  clean : Bool
deriving Repr, DecidableEq

/-- The six retention boundaries of `clear_old_files`
(`now - 0 days, now - 1 day, now - 1 week, now - 4 weeks,
now - 52 weeks, now - 104 weeks`), in seconds. -/
def keep_dates (now : Int) : List Int :=
  [now - 0, now - 86400, now - 604800, now - 2419200, now - 31449600, now - 62899200]

/-- Does a file name pass the optional name filter?  Rust's
`file_name.starts_with(p)` is modelled on the character sequence:
`p` must be a prefix of `name`.  Everything passes when no filter
string is given. -/
def matchesFilter (pfx : Option String) (name : String) : Bool :=
  match pfx with
  | some p => p.data.isPrefixOf name.data
  | none => true

/-- The scan loop: every entry passing the name filter whose
modification time could be read becomes a candidate
`(mtime, directory ++ name, true)`. -/
def scanDir (directory : String) (pfx : Option String) : List DirEntry → List FileRec
  | [] => []
  | e :: es =>
    if matchesFilter pfx e.name then
      match e.meta with
      | some t => ⟨t, directory ++ e.name, true⟩ :: scanDir directory pfx es
      | none => scanDir directory pfx es
    else scanDir directory pfx es

/-- The sort order used by `keep_files.sort_by(|a, b| b.0.cmp(&a.0))`:
modification time descending. -/
def byTimeDesc (a b : FileRec) : Prop := b.mtime ≤ a.mtime

instance : DecidableRel byTimeDesc :=
  fun a b => inferInstanceAs (Decidable (b.mtime ≤ a.mtime))

instance : IsTotal FileRec byTimeDesc :=
  ⟨fun a b => le_total b.mtime a.mtime⟩

instance : IsTrans FileRec byTimeDesc :=
  ⟨fun _ _ _ hab hbc => le_trans hbc hab⟩

/-- Sort the candidate list by modification time descending. -/
def sortDesc (l : List FileRec) : List FileRec := List.insertionSort byTimeDesc l

/-- `*clean = false`: mark a candidate as kept. -/
def setKeep (f : FileRec) : FileRec := ⟨f.mtime, f.path, false⟩

/-- The inner loop of the boundary sweep: walk the list, and at the
first candidate with `modified_time < keep_date` set `clean := false`
and break. -/
def markFirst (b : Int) : List FileRec → List FileRec
  | [] => []
  | f :: fs => if f.mtime < b then setKeep f :: fs else f :: markFirst b fs

/-- The outer loop of the boundary sweep: apply `markFirst` once per
retention boundary, in order. -/
def sweep (bs : List Int) (fs : List FileRec) : List FileRec :=
  bs.foldl (fun acc b => markFirst b acc) fs

/-- Observable outcome of one `clear_old_files` run. -/
structure RunResult where
  dirError : Bool
  errLog : List String
  candidates : List FileRec
  partResult : List FileRec
  removedPaths : List String
  deleted : List String
deriving Repr, DecidableEq

/-- The whole of `clear_old_files`: read the directory (fatal error on
failure), scan the candidates, sort them descending, sweep the six
boundaries when a name filter is supplied (skip the sweep otherwise),
then act on every candidate still flagged `clean = true`:
`removedPaths` is the REMOVE side handed to the executor, and `deleted`
is what is actually unlinked (nothing in test mode). -/
def clear_old_files (dirResult : Except String (List DirEntry)) (directory : String)
    (pfx : Option String) (test : Bool) (now : Int) : RunResult :=
  match dirResult with
  | Except.error e => ⟨true, ["cannot read directory: " ++ e], [], [], [], []⟩
  | Except.ok entries =>
    let keepFiles := scanDir directory pfx entries
    let sorted := sortDesc keepFiles
    let marked :=
      match pfx with
      | some _ => sweep (keep_dates now) sorted
      | none => sorted
    let removed := (marked.filter (fun f => f.clean)).map (fun f => f.path)
    ⟨false, [], keepFiles, marked, removed, if test then [] else removed⟩

/-- Forget the mutable keep flag: the immutable identity of a candidate. -/
def stripFlag (f : FileRec) : Int × String := (f.mtime, f.path)

/-- Number of candidates marked kept (`clean = false`). -/
def countKeep (fs : List FileRec) : Nat := (fs.filter (fun f => !f.clean)).length

theorem sweep_cons (b : Int) (bs : List Int) (fs : List FileRec) :
    sweep (b :: bs) fs = sweep bs (markFirst b fs) := rfl

theorem markFirst_nil (b : Int) : markFirst b [] = [] := rfl

theorem sweep_nil (bs : List Int) : sweep bs [] = [] := by
  induction bs with
  | nil => rfl
  | cons b bs ih => rw [sweep_cons, markFirst_nil]; exact ih

theorem stripFlag_setKeep (f : FileRec) : stripFlag (setKeep f) = stripFlag f := rfl

theorem markFirst_map_stripFlag (b : Int) (fs : List FileRec) :
    (markFirst b fs).map stripFlag = fs.map stripFlag := by
  induction fs with
  | nil => rfl
  | cons f t ih =>
    by_cases h : f.mtime < b
    · simp [markFirst, h, stripFlag_setKeep]
    · simp [markFirst, h, ih]

theorem sweep_map_stripFlag (bs : List Int) (fs : List FileRec) :
    (sweep bs fs).map stripFlag = fs.map stripFlag := by
  induction bs generalizing fs with
  | nil => rfl
  | cons b bs ih => rw [sweep_cons, ih, markFirst_map_stripFlag]

theorem countKeep_markFirst (b : Int) (fs : List FileRec) :
    countKeep (markFirst b fs) ≤ countKeep fs + 1 := by
  induction fs with
  | nil => simp [markFirst, countKeep]
  | cons f t ih =>
    by_cases h : f.mtime < b <;> cases hc : f.clean <;>
      simp [markFirst, h, countKeep, setKeep, List.filter_cons, hc] at * <;> omega

theorem countKeep_sweep (bs : List Int) (fs : List FileRec) :
    countKeep (sweep bs fs) ≤ countKeep fs + bs.length := by
  induction bs generalizing fs with
  | nil => simp [sweep]
  | cons b bs ih =>
    have h1 := ih (markFirst b fs)
    have h2 := countKeep_markFirst b fs
    rw [sweep_cons]
    simp only [List.length_cons]
    omega

theorem scanDir_clean (d : String) (pfx : Option String) (es : List DirEntry) :
    ∀ f ∈ scanDir d pfx es, f.clean = true := by
  induction es with
  | nil => intro f hf; simp [scanDir] at hf
  | cons e es ih =>
    intro f hf
    by_cases h : matchesFilter pfx e.name
    · cases hm : e.meta with
      | some t =>
        simp only [scanDir, if_pos h, hm, List.mem_cons] at hf
        rcases hf with hf | hf
        · rw [hf]
        · exact ih f hf
      | none =>
        simp only [scanDir, if_pos h, hm] at hf
        exact ih f hf
    · simp only [scanDir, if_neg h] at hf
      exact ih f hf

theorem sortDesc_perm (l : List FileRec) : List.Perm (sortDesc l) l :=
  List.perm_insertionSort byTimeDesc l

theorem sortDesc_sorted (l : List FileRec) : List.Sorted byTimeDesc (sortDesc l) :=
  List.sorted_insertionSort byTimeDesc l

theorem sortDesc_clean (l : List FileRec) (h : ∀ f ∈ l, f.clean = true) :
    ∀ f ∈ sortDesc l, f.clean = true :=
  fun f hf => h f ((sortDesc_perm l).mem_iff.mp hf)

theorem countKeep_eq_zero (fs : List FileRec) (h : ∀ f ∈ fs, f.clean = true) :
    countKeep fs = 0 := by
  induction fs with
  | nil => rfl
  | cons f t ih =>
    have hf := h f (by simp)
    simp only [countKeep, List.filter_cons, hf, Bool.not_true, if_false] at *
    exact ih (fun g hg => h g (by simp [hg]))

theorem setKeep_eq_self (f : FileRec) (h : f.clean = false) : setKeep f = f := by
  cases f
  simp only [setKeep] at *
  simp_all

theorem markFirst_cons_keep (b : Int) (f : FileRec) (t : List FileRec)
    (h : f.clean = false) : ∃ t', markFirst b (f :: t) = f :: t' := by
  by_cases hb : f.mtime < b
  · exact ⟨t, by simp [markFirst, hb, setKeep_eq_self f h]⟩
  · exact ⟨markFirst b t, by simp [markFirst, hb]⟩

theorem sweep_cons_keep (bs : List Int) (f : FileRec) (t : List FileRec)
    (h : f.clean = false) : ∃ t', sweep bs (f :: t) = f :: t' := by
  induction bs generalizing t with
  | nil => exact ⟨t, rfl⟩
  | cons b bs ih =>
    obtain ⟨t1, h1⟩ := markFirst_cons_keep b f t h
    obtain ⟨t2, h2⟩ := ih t1
    exact ⟨t2, by rw [sweep_cons, h1]; exact h2⟩

theorem markFirst_of_no_match (b : Int) (fs : List FileRec)
    (h : ∀ f ∈ fs, ¬ f.mtime < b) : markFirst b fs = fs := by
  induction fs with
  | nil => rfl
  | cons f t ih =>
    have hf := h f (by simp)
    simp only [markFirst, if_neg hf]
    rw [ih (fun g hg => h g (by simp [hg]))]

theorem markFirst_first_match (b : Int) (xs : List FileRec) (f : FileRec)
    (ys : List FileRec) (hxs : ∀ x ∈ xs, ¬ x.mtime < b) (hf : f.mtime < b) :
    markFirst b (xs ++ f :: ys) = xs ++ setKeep f :: ys := by
  induction xs with
  | nil => simp [markFirst, hf]
  | cons x xs ih =>
    have hx := hxs x (by simp)
    simp only [List.cons_append, markFirst, if_neg hx]
    exact congrArg (List.cons x) (ih (fun g hg => hxs g (by simp [hg])))

theorem filter_not_append_filter_perm {α : Type} (p : α → Bool) (l : List α) :
    List.Perm (l.filter (fun x => !(p x)) ++ l.filter p) l := by
  induction l with
  | nil => exact List.Perm.refl _
  | cons a l ih =>
    cases hp : p a with
    | true =>
      simp only [List.filter_cons, hp, Bool.not_true, if_false, if_true, ite_false, ite_true]
      exact List.perm_middle.trans (ih.cons a)
    | false =>
      simp only [List.filter_cons, hp, Bool.not_false, if_true, if_false, ite_false, ite_true]
      exact ih.cons a

theorem countKeep_run_le (dirResult : Except String (List DirEntry)) (d : String)
    (pfx : Option String) (test : Bool) (now : Int) :
    countKeep (clear_old_files dirResult d pfx test now).partResult ≤ 6 := by
  cases dirResult with
  | error e => simp [clear_old_files, countKeep]
  | ok entries =>
    have hclean : ∀ f ∈ sortDesc (scanDir d pfx entries), f.clean = true :=
      sortDesc_clean _ (scanDir_clean d pfx entries)
    have h0 : countKeep (sortDesc (scanDir d pfx entries)) = 0 := countKeep_eq_zero _ hclean
    cases pfx with
    | none =>
      show countKeep (sortDesc (scanDir d none entries)) ≤ 6
      omega
    | some p =>
      show countKeep (sweep (keep_dates now) (sortDesc (scanDir d (some p) entries))) ≤ 6
      have hs := countKeep_sweep (keep_dates now) (sortDesc (scanDir d (some p) entries))
      have hl : (keep_dates now).length = 6 := by simp [keep_dates]
      omega

/-- C1: counterexample — with no name filter supplied on the command
line, a run over a single candidate file places that file on the REMOVE
side and actually deletes it, contradicting the claim that the REMOVE
side is empty and no file is deleted. -/
theorem C1_counterexample :
    (clear_old_files (Except.ok [⟨"a", some 5⟩]) "./" none false 100).removedPaths = ["./a"] ∧
    (clear_old_files (Except.ok [⟨"a", some 5⟩]) "./" none false 100).deleted = ["./a"] := by
  decide

/-- C1 (amended): if no name filter is supplied, the boundary sweep is
skipped and every candidate stays on the REMOVE side: the run reports
intent and passes every candidate's path to the delete step, deleting
them all unless in test mode. -/
theorem C1_amended (entries : List DirEntry) (d : String) (test : Bool) (now : Int) :
    (∀ f ∈ (clear_old_files (Except.ok entries) d none test now).partResult, f.clean = true) ∧
    List.Perm (clear_old_files (Except.ok entries) d none test now).removedPaths
      ((scanDir d none entries).map (fun f => f.path)) ∧
    (clear_old_files (Except.ok entries) d none test now).deleted =
      (if test then [] else (clear_old_files (Except.ok entries) d none test now).removedPaths) := by
  have hclean : ∀ f ∈ sortDesc (scanDir d none entries), f.clean = true :=
    sortDesc_clean _ (scanDir_clean d none entries)
  refine ⟨hclean, ?_, rfl⟩
  show List.Perm
    (((sortDesc (scanDir d none entries)).filter (fun f => f.clean)).map (fun f => f.path)) _
  rw [List.filter_eq_self.mpr hclean]
  exact (sortDesc_perm _).map (fun f => f.path)

/-- Witness for C1 (amended) at a concrete input. -/
theorem C1_amended_witness :
    (∀ f ∈ (clear_old_files (Except.ok [⟨"b", some 7⟩]) "./" none true 100).partResult,
        f.clean = true) ∧
    List.Perm (clear_old_files (Except.ok [⟨"b", some 7⟩]) "./" none true 100).removedPaths
      ((scanDir "./" none [⟨"b", some 7⟩]).map (fun f => f.path)) ∧
    (clear_old_files (Except.ok [⟨"b", some 7⟩]) "./" none true 100).deleted =
      (if true then []
        else (clear_old_files (Except.ok [⟨"b", some 7⟩]) "./" none true 100).removedPaths) :=
  C1_amended [⟨"b", some 7⟩] "./" true 100

/-- Seven directory entries all modified exactly at the captured `now`. -/
def sevenEntries : List DirEntry :=
  [⟨"a", some 100⟩, ⟨"b", some 100⟩, ⟨"c", some 100⟩, ⟨"d", some 100⟩,
   ⟨"e", some 100⟩, ⟨"f", some 100⟩, ⟨"g", some 100⟩]

/-- C2: counterexample — a run over seven candidates none of which is
strictly older than any boundary places all seven on the REMOVE side,
exceeding the claimed bound of six. -/
theorem C2_counterexample :
    6 < (clear_old_files (Except.ok sevenEntries) "./" (some "") false 100).removedPaths.length := by
  decide

/-- C2 (amended): in every run at most six candidates are placed on the
KEEP side of the partition — at most one per boundary, fewer when a
boundary matches no candidate or re-selects an already kept candidate;
the REMOVE side holds every other candidate and is unbounded. -/
theorem C2_amended (dirResult : Except String (List DirEntry)) (d : String)
    (pfx : Option String) (test : Bool) (now : Int) :
    ((clear_old_files dirResult d pfx test now).partResult.filter
      (fun f => !f.clean)).length ≤ 6 :=
  countKeep_run_le dirResult d pfx test now

/-- C3: the partition is an exact disjoint cover of the candidate set:
every candidate is labeled exactly one of KEEP (`clean = false`) or
REMOVE (`clean = true`); KEEP together with REMOVE is a permutation of
the scanned candidates (forgetting the mutable flag), and no record
lies on both sides. -/
theorem C3_partition_cover (dirResult : Except String (List DirEntry)) (d : String)
    (pfx : Option String) (test : Bool) (now : Int) :
    List.Perm
      ((((clear_old_files dirResult d pfx test now).partResult.filter (fun f => !f.clean)) ++
        ((clear_old_files dirResult d pfx test now).partResult.filter (fun f => f.clean))).map
          stripFlag)
      ((clear_old_files dirResult d pfx test now).candidates.map stripFlag) ∧
    ∀ f ∈ (clear_old_files dirResult d pfx test now).partResult.filter (fun f => !f.clean),
      f ∉ (clear_old_files dirResult d pfx test now).partResult.filter (fun f => f.clean) := by
  constructor
  · cases dirResult with
    | error e => exact List.Perm.refl _
    | ok entries =>
      have h1 := (filter_not_append_filter_perm (fun f => f.clean)
        (clear_old_files (Except.ok entries) d pfx test now).partResult).map stripFlag
      refine h1.trans ?_
      have h2 : (clear_old_files (Except.ok entries) d pfx test now).partResult.map stripFlag
          = (sortDesc (scanDir d pfx entries)).map stripFlag := by
        cases pfx with
        | none => rfl
        | some p => exact sweep_map_stripFlag _ _
      rw [h2]
      exact (sortDesc_perm _).map stripFlag
  · intro f hf hmem
    have h1 : (!f.clean) = true := (List.mem_filter.mp hf).2
    have h2 : f.clean = true := (List.mem_filter.mp hmem).2
    rw [h2] at h1
    simp at h1

/-- Witness for C3 at a concrete input. -/
theorem C3_witness :
    List.Perm
      ((((clear_old_files (Except.ok [⟨"a", some 5⟩, ⟨"b", some 80⟩]) "./" (some "") false
            100).partResult.filter (fun f => !f.clean)) ++
        ((clear_old_files (Except.ok [⟨"a", some 5⟩, ⟨"b", some 80⟩]) "./" (some "") false
            100).partResult.filter (fun f => f.clean))).map stripFlag)
      ((clear_old_files (Except.ok [⟨"a", some 5⟩, ⟨"b", some 80⟩]) "./" (some "") false
          100).candidates.map stripFlag) ∧
    ∀ f ∈ (clear_old_files (Except.ok [⟨"a", some 5⟩, ⟨"b", some 80⟩]) "./" (some "") false
        100).partResult.filter (fun f => !f.clean),
      f ∉ (clear_old_files (Except.ok [⟨"a", some 5⟩, ⟨"b", some 80⟩]) "./" (some "") false
        100).partResult.filter (fun f => f.clean) :=
  C3_partition_cover (Except.ok [⟨"a", some 5⟩, ⟨"b", some 80⟩]) "./" (some "") false 100

/-- C4: the dry-run flag never influences which candidates land in KEEP
or REMOVE — the partition and the REMOVE path list computed with
`test = true` equal those computed with `test = false`; only the
executor's side effect (what is actually deleted) differs. -/
theorem C4_dry_run_same_partition (dirResult : Except String (List DirEntry)) (d : String)
    (pfx : Option String) (now : Int) :
    (clear_old_files dirResult d pfx true now).partResult =
      (clear_old_files dirResult d pfx false now).partResult ∧
    (clear_old_files dirResult d pfx true now).removedPaths =
      (clear_old_files dirResult d pfx false now).removedPaths := by
  cases dirResult <;> exact ⟨rfl, rfl⟩

/-- C5: counterexample — the first retention boundary equals `now`, and
processing it over a single candidate modified just before `now` does
change that candidate's flag: the `now` boundary is not an inert
sentinel. -/
theorem C5_counterexample :
    (keep_dates 100).head? = some 100 ∧
    markFirst 100 [⟨99, "a", true⟩] ≠ [⟨99, "a", true⟩] := by
  decide

/-- C5 (amended): the first boundary (`now` itself) triggers no keep
decision only when no candidate is strictly older than `now`: if every
candidate's modification time is at least `now`, processing the `now`
boundary changes no candidate's flag.  In general it behaves like every
other boundary and marks the first strictly older candidate as kept. -/
theorem C5_amended (now : Int) (fs : List FileRec) (h : ∀ f ∈ fs, now ≤ f.mtime) :
    markFirst now fs = fs :=
  markFirst_of_no_match now fs (fun f hf => not_lt.mpr (h f hf))

/-- Witness for C5 (amended) at a concrete input. -/
theorem C5_amended_witness :
    (∀ f ∈ [(⟨100, "a", true⟩ : FileRec), ⟨150, "b", true⟩], (100 : Int) ≤ f.mtime) ∧
    markFirst 100 [(⟨100, "a", true⟩ : FileRec), ⟨150, "b", true⟩] =
      [(⟨100, "a", true⟩ : FileRec), ⟨150, "b", true⟩] :=
  ⟨by decide, C5_amended 100 _ (by decide)⟩

/-- C6: for every boundary `b`, one pass of the inner sweep loop marks
exactly the first candidate (in the given descending order) whose
modification time is strictly less than `b` and leaves the rest of the
list untouched (the loop breaks); if no candidate is strictly older
than `b`, the pass changes nothing, so at most one candidate is
affected per boundary. -/
theorem C6_boundary_step (b : Int) :
    (∀ (xs : List FileRec) (f : FileRec) (ys : List FileRec),
        (∀ x ∈ xs, ¬ x.mtime < b) → f.mtime < b →
        markFirst b (xs ++ f :: ys) = xs ++ setKeep f :: ys) ∧
    (∀ fs : List FileRec, (∀ f ∈ fs, ¬ f.mtime < b) → markFirst b fs = fs) :=
  ⟨fun xs f ys hxs hf => markFirst_first_match b xs f ys hxs hf,
   fun fs h => markFirst_of_no_match b fs h⟩

/-- Witness for C6 at concrete inputs. -/
theorem C6_witness :
    markFirst 100 [⟨150, "x", true⟩, ⟨50, "y", true⟩, ⟨40, "z", true⟩] =
      [⟨150, "x", true⟩, ⟨50, "y", false⟩, ⟨40, "z", true⟩] ∧
    markFirst 100 [⟨150, "x", true⟩] = [⟨150, "x", true⟩] :=
  ⟨(C6_boundary_step 100).1 [⟨150, "x", true⟩] ⟨50, "y", true⟩ [⟨40, "z", true⟩]
      (by decide) (by decide),
   (C6_boundary_step 100).2 [⟨150, "x", true⟩] (by decide)⟩

/-- C7: if the candidate set is empty (no directory entry matches the
supplied name filter, or metadata could not be read), the run places
nothing on the REMOVE side, deletes nothing, and raises no error. -/
theorem C7_empty_candidates (entries : List DirEntry) (d : String) (pfx : Option String)
    (test : Bool) (now : Int)
    (h : (clear_old_files (Except.ok entries) d pfx test now).candidates = []) :
    (clear_old_files (Except.ok entries) d pfx test now).removedPaths = [] ∧
    (clear_old_files (Except.ok entries) d pfx test now).deleted = [] ∧
    (clear_old_files (Except.ok entries) d pfx test now).dirError = false ∧
    (clear_old_files (Except.ok entries) d pfx test now).errLog = [] := by
  have hscan : scanDir d pfx entries = [] := h
  have hsorted : sortDesc (scanDir d pfx entries) = [] := by rw [hscan]; rfl
  cases pfx with
  | none =>
    have hrem : (clear_old_files (Except.ok entries) d none test now).removedPaths = [] := by
      show ((sortDesc (scanDir d none entries)).filter (fun f => f.clean)).map
        (fun f => f.path) = []
      rw [hsorted]
      rfl
    refine ⟨hrem, ?_, rfl, rfl⟩
    show (if test then []
      else ((sortDesc (scanDir d none entries)).filter (fun f => f.clean)).map
        (fun f => f.path)) = []
    rw [hsorted]
    cases test <;> rfl
  | some p =>
    have hrem : (clear_old_files (Except.ok entries) d (some p) test now).removedPaths = [] := by
      show ((sweep (keep_dates now) (sortDesc (scanDir d (some p) entries))).filter
        (fun f => f.clean)).map (fun f => f.path) = []
      rw [hsorted, sweep_nil]
      rfl
    refine ⟨hrem, ?_, rfl, rfl⟩
    show (if test then []
      else ((sweep (keep_dates now) (sortDesc (scanDir d (some p) entries))).filter
        (fun f => f.clean)).map (fun f => f.path)) = []
    rw [hsorted, sweep_nil]
    cases test <;> rfl

/-- Witness for C7 at a concrete input: one entry that does not match
the name filter and one whose metadata read failed. -/
theorem C7_witness :
    (clear_old_files (Except.ok [⟨"other", some 5⟩, ⟨"b", none⟩]) "./" (some "b") false
        100).candidates = [] ∧
    (clear_old_files (Except.ok [⟨"other", some 5⟩, ⟨"b", none⟩]) "./" (some "b") false
        100).removedPaths = [] ∧
    (clear_old_files (Except.ok [⟨"other", some 5⟩, ⟨"b", none⟩]) "./" (some "b") false
        100).deleted = [] ∧
    (clear_old_files (Except.ok [⟨"other", some 5⟩, ⟨"b", none⟩]) "./" (some "b") false
        100).dirError = false ∧
    (clear_old_files (Except.ok [⟨"other", some 5⟩, ⟨"b", none⟩]) "./" (some "b") false
        100).errLog = [] :=
  ⟨by decide,
   C7_empty_candidates [⟨"other", some 5⟩, ⟨"b", none⟩] "./" (some "b") false 100 (by decide)⟩

/-- C8: an unreadable target directory halts the run atomically: the
error is logged to the error stream and the function returns with no
candidate scanned, no partition built and no file deleted. -/
theorem C8_directory_unreadable (e : String) (d : String) (pfx : Option String)
    (test : Bool) (now : Int) :
    (clear_old_files (Except.error e) d pfx test now).dirError = true ∧
    (clear_old_files (Except.error e) d pfx test now).errLog =
      ["cannot read directory: " ++ e] ∧
    (clear_old_files (Except.error e) d pfx test now).candidates = [] ∧
    (clear_old_files (Except.error e) d pfx test now).partResult = [] ∧
    (clear_old_files (Except.error e) d pfx test now).removedPaths = [] ∧
    (clear_old_files (Except.error e) d pfx test now).deleted = [] :=
  ⟨rfl, rfl, rfl, rfl, rfl, rfl⟩

/-- C9: in every run with a name filter supplied, at most six
candidates survive (are marked kept, hence exempted from the delete
step); every candidate still flagged for removal has its path passed
to the delete step. -/
theorem C9_at_most_six_survive (entries : List DirEntry) (d p : String) (test : Bool)
    (now : Int) :
    ((clear_old_files (Except.ok entries) d (some p) test now).partResult.filter
      (fun f => !f.clean)).length ≤ 6 ∧
    (clear_old_files (Except.ok entries) d (some p) test now).removedPaths =
      ((clear_old_files (Except.ok entries) d (some p) test now).partResult.filter
        (fun f => f.clean)).map (fun f => f.path) ∧
    ∀ f ∈ (clear_old_files (Except.ok entries) d (some p) test now).partResult,
      f.clean = true →
        f.path ∈ (clear_old_files (Except.ok entries) d (some p) test now).removedPaths := by
  refine ⟨countKeep_run_le (Except.ok entries) d (some p) test now, rfl, ?_⟩
  intro f hf hc
  exact List.mem_map_of_mem (fun g => g.path) (List.mem_filter.mpr ⟨hf, hc⟩)

/-- Witness for C9 at a concrete input. -/
theorem C9_witness :
    ((clear_old_files (Except.ok [⟨"a1", some 5⟩, ⟨"a2", some 9⟩]) "./" (some "a") false
        100).partResult.filter (fun f => !f.clean)).length ≤ 6 ∧
    (clear_old_files (Except.ok [⟨"a1", some 5⟩, ⟨"a2", some 9⟩]) "./" (some "a") false
        100).removedPaths =
      ((clear_old_files (Except.ok [⟨"a1", some 5⟩, ⟨"a2", some 9⟩]) "./" (some "a") false
        100).partResult.filter (fun f => f.clean)).map (fun f => f.path) ∧
    ∀ f ∈ (clear_old_files (Except.ok [⟨"a1", some 5⟩, ⟨"a2", some 9⟩]) "./" (some "a") false
        100).partResult,
      f.clean = true →
        f.path ∈ (clear_old_files (Except.ok [⟨"a1", some 5⟩, ⟨"a2", some 9⟩]) "./" (some "a")
          false 100).removedPaths :=
  C9_at_most_six_survive [⟨"a1", some 5⟩, ⟨"a2", some 9⟩] "./" "a" false 100

/-- C10: in a run with a name filter supplied, a non-empty candidate
set all of whose modification times are strictly earlier than the
captured `now` always has its most recent candidate exempted from
deletion (selected by the first boundary, `now` minus zero days). -/
theorem C10_newest_survives (entries : List DirEntry) (d p : String) (test : Bool) (now : Int)
    (hne : (clear_old_files (Except.ok entries) d (some p) test now).candidates ≠ [])
    (hall : ∀ f ∈ (clear_old_files (Except.ok entries) d (some p) test now).candidates,
      f.mtime < now) :
    ∃ f ∈ (clear_old_files (Except.ok entries) d (some p) test now).partResult,
      f.clean = false ∧
      ∀ g ∈ (clear_old_files (Except.ok entries) d (some p) test now).candidates,
        g.mtime ≤ f.mtime := by
  have hcne : scanDir d (some p) entries ≠ [] := hne
  obtain ⟨h, t, hsort⟩ :
      ∃ h t, sortDesc (scanDir d (some p) entries) = h :: t := by
    cases hs : sortDesc (scanDir d (some p) entries) with
    | nil =>
      exfalso
      have hl := (sortDesc_perm (scanDir d (some p) entries)).length_eq
      rw [hs] at hl
      exact hcne (List.length_eq_zero.mp hl.symm)
    | cons h t => exact ⟨h, t, rfl⟩
  have hsorted := sortDesc_sorted (scanDir d (some p) entries)
  rw [hsort] at hsorted
  have hmax : ∀ g ∈ scanDir d (some p) entries, g.mtime ≤ h.mtime := by
    intro g hg
    have hgs : g ∈ h :: t := by
      rw [← hsort]
      exact ((sortDesc_perm _).mem_iff).mpr hg
    rcases List.mem_cons.mp hgs with hgh | hgt
    · rw [hgh]
    · exact List.rel_of_sorted_cons hsorted g hgt
  have hhm : h.mtime < now := by
    apply hall
    show h ∈ scanDir d (some p) entries
    exact ((sortDesc_perm _).mem_iff).mp (by rw [hsort]; exact List.mem_cons_self h t)
  have hstep : markFirst (now - 0) (h :: t) = setKeep h :: t := by
    have hlt : h.mtime < now - 0 := by omega
    show (if h.mtime < now - 0 then setKeep h :: t else h :: markFirst (now - 0) t) =
      setKeep h :: t
    rw [if_pos hlt]
  obtain ⟨t', ht'⟩ := sweep_cons_keep
    [now - 86400, now - 604800, now - 2419200, now - 31449600, now - 62899200]
    (setKeep h) t rfl
  have hpart : (clear_old_files (Except.ok entries) d (some p) test now).partResult =
      setKeep h :: t' := by
    show sweep (keep_dates now) (sortDesc (scanDir d (some p) entries)) = setKeep h :: t'
    rw [hsort]
    simp only [keep_dates]
    rw [sweep_cons, hstep]
    exact ht'
  refine ⟨setKeep h, ?_, rfl, ?_⟩
  · rw [hpart]
    exact List.mem_cons_self _ _
  · intro g hg
    exact hmax g hg

/-- Witness for C10 at a concrete input. -/
theorem C10_witness :
    ((clear_old_files (Except.ok [⟨"a", some 5⟩, ⟨"ab", some 3⟩]) "./" (some "a") false
        100).candidates ≠ [] ∧
      ∀ f ∈ (clear_old_files (Except.ok [⟨"a", some 5⟩, ⟨"ab", some 3⟩]) "./" (some "a") false
        100).candidates, f.mtime < 100) ∧
    ∃ f ∈ (clear_old_files (Except.ok [⟨"a", some 5⟩, ⟨"ab", some 3⟩]) "./" (some "a") false
        100).partResult,
      f.clean = false ∧
      ∀ g ∈ (clear_old_files (Except.ok [⟨"a", some 5⟩, ⟨"ab", some 3⟩]) "./" (some "a") false
        100).candidates, g.mtime ≤ f.mtime :=
  ⟨⟨by decide, by decide⟩,
   C10_newest_survives [⟨"a", some 5⟩, ⟨"ab", some 3⟩] "./" "a" false 100
     (by decide) (by decide)⟩

end AutoclearBackup
